import Mathlib

/-
Verification of the `o4n_ros_command` Ansible module
(plugins/modules/o4n_ros_command.py).

The module drives a Ruggedcom ROS device CLI over SSH or Telnet.  We give a
shallow embedding of `main()`: device interactions (reads, `send_command_timing`
calls, connect attempts) are taken from an explicit environment value, strings
are `List Char`, and the module's two protocol paths become pure functions that
return the module result (`exit_json` content / `fail_json` message / uncaught
exception), the connection open/close bookkeeping, and the ordered list of I/O
operations performed.

Python's `s.replace(old, "")` (used to strip the pager marker
`"--More-- or (q)uit"`) is embedded as `strReplace`: a single left-to-right
scan removing non-overlapping occurrences.
-/

abbrev Str := List Char

/-- The pager marker literal `more_prompt = "--More-- or (q)uit"` (line 212). -/
def more_prompt : Str := "--More-- or (q)uit".data

/-- Substring test, mirroring Python's `sub in s`. -/
def hasSub (m : Str) : Str → Bool
  | [] => decide (m = [])
  | c :: t => m.isPrefixOf (c :: t) || hasSub m t

/-- Fuel-driven core of Python's `s.replace(m, "")`: scan left to right; on a
match skip `m.length` characters and continue after the occurrence, otherwise
copy one character.  `fuel ≥ s.length` makes the fuel irrelevant. -/
def strReplaceF (m : Str) : Nat → Str → Str
  | _, [] => []
  | 0, s => s
  | fuel + 1, c :: t =>
    if m.isPrefixOf (c :: t) then strReplaceF m fuel ((c :: t).drop m.length)
    else c :: strReplaceF m fuel t

/-- Python's `s.replace(m, "")`. -/
def strReplace (m s : Str) : Str := strReplaceF m s.length s

/-- `m` has no nonempty proper border: no nonempty proper suffix of `m` is also
one of its leading parts.  (Used to rule out overlapping marker occurrences.) -/
def Unbordered (m : Str) : Prop :=
  ∀ k, k < m.length → 0 < k → (m.drop k).isPrefixOf m = false

-- ### marker-interleaved strings

/-- Concatenation of a list of segments. -/
def catSegs : List Str → Str
  | [] => []
  | x :: rest => x ++ catSegs rest

/-- `joinSep sep [x₀, x₁, …, xₙ] = x₀ ++ sep ++ x₁ ++ sep ++ … ++ sep ++ xₙ`:
the shape of a string containing `n` marker occurrences at given positions. -/
def joinSep (sep : Str) : List Str → Str
  | [] => []
  | [x] => x
  | x :: y :: rest => x ++ (sep ++ joinSep sep (y :: rest))


-- ### the embedded module
--
-- Strings written/read on the wire and module parameters are `Str`.
-- `decode('ascii')` is modelled as the identity on `Str` (the byte/str
-- distinction is collapsed; characters are characters).

/-- One I/O operation performed on the transport, in order. -/
inductive Ev
  /-- a Telnet `write` of the given bytes -/
  | write (bs : Str)
  /-- a Telnet `read_until(pat, timeout)` -/
  | readUntil (pat : Str)
  /-- a Telnet `read_very_eager()` -/
  | readEager
  /-- an SSH `send_command_timing(s, last_read=1)` -/
  | sendCmd (s : Str)
  deriving DecidableEq

/-- Outcome of one `send_command_timing` call, supplied by the environment:
either the captured page, or a raised exception (`timeout = true` marks a
`NetmikoTimeoutException`, any other exception otherwise; both are subclasses
of `Exception`).  `msg` is `str(err)`. -/
inductive SendR
  | ok (page : Str)
  | exn (timeout : Bool) (msg : Str)
  deriving DecidableEq

-- error messages, verbatim from the source

/-- line 200: `'O4N_ERROR: SSH Connection Exception\n' + str(err)` -/
def sshConnMsg (err : Str) : Str := "O4N_ERROR: SSH Connection Exception\n".data ++ err

/-- line 206: `'O4N_ERROR: CLI Prompt Exception\n' + str(err)` -/
def cliPromptMsg (err : Str) : Str := "O4N_ERROR: CLI Prompt Exception\n".data ++ err

/-- line 218: `'O4N_ERROR: Send Command Exception\n' + str(err)` -/
def sendCmdMsg (err : Str) : Str := "O4N_ERROR: Send Command Exception\n".data ++ err

/-- line 228: `'O4N_ERROR: Pagination Exception\n' + str(err)` -/
def paginationMsg (err : Str) : Str := "O4N_ERROR: Pagination Exception\n".data ++ err

/-- `user + '@' + host + ':' + str(port)` -/
def connSettings (user host : Str) (port : Nat) : Str :=
  user ++ "@".data ++ host ++ ":".data ++ (Nat.repr port).data

/-- lines 128/135/143/154: `'O4N_ERROR: Telnet Connection Exception (x)\nConnection settings: ' + user + '@' + host + ':' + str(port) + '\n' + str(err)` -/
def tnConnMsg (tag : Char) (user host : Str) (port : Nat) (err : Str) : Str :=
  "O4N_ERROR: Telnet Connection Exception (".data ++ [tag] ++ ")\nConnection settings: ".data
    ++ connSettings user host port ++ "\n".data ++ err

/-- lines 162-170: the triple-quoted authentication failure text (each source
line ends in an escaped `\n` followed by the literal line break, hence the
doubled newlines), with `user + '@' + host + ':' + str(port)` appended. -/
def tnAuthMsg (user host : Str) (port : Nat) : Str :=
  "\n".data ++ ['\''] ++ "O4N_ERROR: Telnet Authentication Exception.\n\nAuthentication to device failed.\n\nCommon causes of this problem are:\n\n1. Invalid username and password\n\n2. Connecting to the wrong device\n\nConnection settings:\n".data
    ++ connSettings user host port

/-- line 182: `'O4N_ERROR: Telnet Command Exception \n' + str(err)` -/
def tnCmdMsg (err : Str) : Str := "O4N_ERROR: Telnet Command Exception \n".data ++ err

-- fixed wire literals

/-- line 133 `read_until` pattern (note the trailing space). -/
def loginLit : Str := "Enter User Name: ".data

/-- line 161 membership test literal (no trailing space). -/
def loginLit2 : Str := "Enter User Name:".data

/-- line 141 `read_until` pattern. -/
def passLit : Str := "Password: ".data

/-- lines 160/180 `read_until` pattern: the prompt `>` followed by the echoed
four-space end-of-batch keyword. -/
def promptPat : Str := ">    ".data

/-- line 178: the four-space "finish keyword" written after the last command. -/
def sentinel : Str := "    ".data

/-- `b'\n'` -/
def newlineCmd : Str := "\n".data

/-- line 148 control byte 0x13 (force CLI mode). -/
def ctlS : Str := "\x13".data

/-- line 149: `b'cls' + b'\n'` -/
def clsCmd : Str := "cls\n".data

/-- line 204: `'\n \x13'` sent to enter the CLI over SSH. -/
def cliEntryCmd : Str := "\n \x13".data

/-- line 213: `'>' + command + '\n'`, the module-synthesized echo line. -/
def echoLine (cmd : Str) : Str := '>' :: (cmd ++ newlineCmd)

-- ### SSH path (lines 196-245)

/-- Result of the per-command pagination loop (lines 221-235): the accumulated
`cmd_output`, the unconsumed environment and the sends performed; or a
`fail_json` abort; or exhaustion of the scripted environment (the loop would
keep reading — used to express non-termination of the `while True`). -/
inductive PagR
  | done (acc : Str) (env : List SendR) (evs : List Ev)
  | fail (msg : Str) (evs : List Ev)
  | out (evs : List Ev)
  deriving DecidableEq

/-- Prefix the event of the continuation send onto a pagination result. -/
def pagStep : PagR → PagR
  | PagR.done a e evs => PagR.done a e (Ev.sendCmd newlineCmd :: evs)
  | PagR.fail m evs => PagR.fail m (Ev.sendCmd newlineCmd :: evs)
  | PagR.out evs => PagR.out (Ev.sendCmd newlineCmd :: evs)

/-- Lines 221-235.  `page` is the page just obtained, `acc` the `cmd_output`
accumulated so far.  The body appends the page; if it contains `more_prompt`
a continuation `send_command_timing('\n', last_read=1)` is issued whose
outcome comes from the environment.  Any exception that send raises is caught
by the inner `except Exception` (line 227) and turns into the fatal
`Pagination Exception` `fail_json`; the outer `except NetmikoTimeoutException`
(line 233) guards only statements that cannot raise it, so it has no
reachable arm here. -/
def sshPagLoop : List SendR → Str → Str → PagR
  | [], page, acc =>
    if hasSub more_prompt page then PagR.out [] else PagR.done (acc ++ page) [] []
  | r :: env, page, acc =>
    if hasSub more_prompt page then
      match r with
      | SendR.ok p => pagStep (sshPagLoop env p (acc ++ page))
      | SendR.exn _ m => PagR.fail (paginationMsg m) [Ev.sendCmd newlineCmd]
    else PagR.done (acc ++ page) (r :: env) []

/-- Result of the command loop (lines 210-236). -/
inductive CmdsR
  | done (out : Str) (evs : List Ev)
  | fail (msg : Str) (evs : List Ev)
  | out (evs : List Ev)
  deriving DecidableEq

/-- Prefix the events of one command onto a command-loop result. -/
def cmdStep (cmd : Str) (evs : List Ev) : CmdsR → CmdsR
  | CmdsR.done o evs2 => CmdsR.done o (Ev.sendCmd cmd :: (evs ++ evs2))
  | CmdsR.fail m evs2 => CmdsR.fail m (Ev.sendCmd cmd :: (evs ++ evs2))
  | CmdsR.out evs2 => CmdsR.out (Ev.sendCmd cmd :: (evs ++ evs2))

/-- Lines 210-236: for each command, seed `cmd_output` with the synthesized
echo line, send the command (a raised exception is fatal, line 218), run the
pagination loop, then append `cmd_output.replace(more_prompt, "")` to
`output`. -/
def sshCmds : List Str → List SendR → Str → CmdsR
  | [], _, outAcc => CmdsR.done outAcc []
  | cmd :: _, [], _ => CmdsR.out [Ev.sendCmd cmd]
  | cmd :: _, SendR.exn _ m :: _, _ => CmdsR.fail (sendCmdMsg m) [Ev.sendCmd cmd]
  | cmd :: rest, SendR.ok p :: env, outAcc =>
    match sshPagLoop env p (echoLine cmd) with
    | PagR.done cmdOut env2 evs =>
      cmdStep cmd evs (sshCmds rest env2 (outAcc ++ strReplace more_prompt cmdOut))
    | PagR.fail m evs => CmdsR.fail m (Ev.sendCmd cmd :: evs)
    | PagR.out evs => CmdsR.out (Ev.sendCmd cmd :: evs)

/-- Environment for the SSH path: the outcome of `ConnectHandler(...)` and the
scripted outcomes of the successive `send_command_timing` calls (the first one
answers the CLI-entry send of line 204). -/
structure SshEnv where
  connect : Except Str Unit
  sends : List SendR

/-- Module-level outcome of the SSH path. -/
inductive SshRes
  /-- `module.exit_json(failed=False, content=text)` -/
  | content (text : Str)
  /-- `module.fail_json(msg=msg, failed=True, changed=False)` -/
  | failJson (msg : Str)
  /-- the scripted environment ran out of `send_command_timing` outcomes -/
  | fuel
  deriving DecidableEq

/-- `true` exactly on the successful `exit_json` outcome. -/
def SshRes.isContent : SshRes → Bool
  | SshRes.content _ => true
  | _ => false

structure SshOut where
  res : SshRes
  opened : Bool
  closed : Bool
  events : List Ev
  deriving DecidableEq

/-- Lines 196-245, the whole SSH branch of `main()`.  `host`, `port`, `user`
and `password` are handed to `ConnectHandler` (line 198) whose outcome the
environment decides; `ssh_client.disconnect()` (line 238) runs only after the
command loop finished without `fail_json`. -/
def sshRun (host : Str) (port : Nat) (user password : Str)
    (commands : List Str) (env : SshEnv) : SshOut :=
  match env.connect with
  | Except.error e => ⟨SshRes.failJson (sshConnMsg e), false, false, []⟩
  | Except.ok _ =>
    match env.sends with
    | [] => ⟨SshRes.fuel, true, false, []⟩
    | SendR.exn _ m :: _ => ⟨SshRes.failJson (cliPromptMsg m), true, false, [Ev.sendCmd cliEntryCmd]⟩
    | SendR.ok _ :: env2 =>
      match sshCmds commands env2 [] with
      | CmdsR.done o evs => ⟨SshRes.content o, true, true, Ev.sendCmd cliEntryCmd :: evs⟩
      | CmdsR.fail m evs => ⟨SshRes.failJson m, true, false, Ev.sendCmd cliEntryCmd :: evs⟩
      | CmdsR.out evs => ⟨SshRes.fuel, true, false, Ev.sendCmd cliEntryCmd :: evs⟩

-- ### Telnet path (lines 124-194)

/-- Environment for the Telnet path: outcome of `telnetlib.Telnet(...)` and of
the five reads performed, in program order.  `Except.error e` means the call
raised, with `str(err) = e`; `Except.ok v` is the value read. -/
structure TnEnv where
  connect : Except Str Unit
  readLogin : Except Str Str
  readPassword : Except Str Str
  readEager : Except Str Str
  readPrompt : Except Str Str
  readOutput : Except Str Str

/-- Module-level outcome of the Telnet path. -/
inductive TnRes
  /-- `module.exit_json(failed=False, content=text)` -/
  | content (text : Str)
  /-- `module.fail_json(msg=msg, failed=True, changed=False)` -/
  | failJson (msg : Str)
  /-- an exception escaped `main()` (the line 160 `read_until` is not guarded) -/
  | crash (msg : Str)
  deriving DecidableEq

/-- `true` exactly on the successful `exit_json` outcome. -/
def TnRes.isContent : TnRes → Bool
  | TnRes.content _ => true
  | _ => false

structure TnOut where
  res : TnRes
  opened : Bool
  closed : Bool
  events : List Ev
  deriving DecidableEq

/-- `True`/`false` of an environment call outcome. -/
def exOk : Except Str Unit → Bool
  | Except.ok _ => true
  | Except.error _ => false

/-- Lines 124-194, the whole Telnet branch of `main()`:
connect (line 126), read until the username prompt (133), write the username
(138), read until the password prompt (141), write the password (146), write
the 0x13 control byte and `cls` (148-149), drain with `read_very_eager` (152),
write a newline (157), read up to `'>    '` (160) — unguarded, so a raised
exception escapes —, fail on a lingering `'Enter User Name:'` (161-171),
write each command (173-175), write the four-space finish keyword (178), read
up to `'>    '` (180), close (187) and return the decoded output (192).
`tn_client.close()` is reached only on that success path. -/
def telnetRun (host : Str) (port : Nat) (user password : Str)
    (commands : List Str) (env : TnEnv) : TnOut :=
  match env.connect with
  | Except.error e => ⟨TnRes.failJson (tnConnMsg 'a' user host port e), false, false, []⟩
  | Except.ok _ =>
    match env.readLogin with
    | Except.error e =>
      ⟨TnRes.failJson (tnConnMsg 'b' user host port e), true, false, [Ev.readUntil loginLit]⟩
    | Except.ok _ =>
      match env.readPassword with
      | Except.error e =>
        ⟨TnRes.failJson (tnConnMsg 'c' user host port e), true, false,
          [Ev.readUntil loginLit, Ev.write (user ++ newlineCmd), Ev.readUntil passLit]⟩
      | Except.ok _ =>
        match env.readEager with
        | Except.error e =>
          ⟨TnRes.failJson (tnConnMsg 'd' user host port e), true, false,
            [Ev.readUntil loginLit, Ev.write (user ++ newlineCmd), Ev.readUntil passLit,
             Ev.write (password ++ newlineCmd), Ev.write ctlS, Ev.write clsCmd, Ev.readEager]⟩
        | Except.ok _ =>
          match env.readPrompt with
          | Except.error e =>
            ⟨TnRes.crash e, true, false,
              [Ev.readUntil loginLit, Ev.write (user ++ newlineCmd), Ev.readUntil passLit,
               Ev.write (password ++ newlineCmd), Ev.write ctlS, Ev.write clsCmd, Ev.readEager,
               Ev.write newlineCmd, Ev.readUntil promptPat]⟩
          | Except.ok prompt =>
            if hasSub loginLit2 prompt then
              ⟨TnRes.failJson (tnAuthMsg user host port), true, false,
                [Ev.readUntil loginLit, Ev.write (user ++ newlineCmd), Ev.readUntil passLit,
                 Ev.write (password ++ newlineCmd), Ev.write ctlS, Ev.write clsCmd, Ev.readEager,
                 Ev.write newlineCmd, Ev.readUntil promptPat]⟩
            else
              match env.readOutput with
              | Except.error e =>
                ⟨TnRes.failJson (tnCmdMsg e), true, false,
                  [Ev.readUntil loginLit, Ev.write (user ++ newlineCmd), Ev.readUntil passLit,
                   Ev.write (password ++ newlineCmd), Ev.write ctlS, Ev.write clsCmd, Ev.readEager,
                   Ev.write newlineCmd, Ev.readUntil promptPat]
                  ++ commands.map (fun c => Ev.write (c ++ newlineCmd))
                  ++ [Ev.write (sentinel ++ newlineCmd), Ev.readUntil promptPat]⟩
              | Except.ok output =>
                ⟨TnRes.content output, true, true,
                  [Ev.readUntil loginLit, Ev.write (user ++ newlineCmd), Ev.readUntil passLit,
                   Ev.write (password ++ newlineCmd), Ev.write ctlS, Ev.write clsCmd, Ev.readEager,
                   Ev.write newlineCmd, Ev.readUntil promptPat]
                  ++ commands.map (fun c => Ev.write (c ++ newlineCmd))
                  ++ [Ev.write (sentinel ++ newlineCmd), Ev.readUntil promptPat]⟩


-- ### scripted SSH sessions

/-- One scripted command exchange: the command, the marker-bearing pages the
device serves first, and the final marker-free page. -/
abbrev ScriptEntry := Str × List Str × Str

/-- A successfully completing device script, one entry per command. -/
abbrev Script := List ScriptEntry

/-- The commands of a script. -/
def scriptCmds (s : Script) : List Str := s.map (fun e => e.1)

/-- The `send_command_timing` outcomes a script supplies: for each command,
its pages in order (all `ok`). -/
def scriptSends : Script → List SendR
  | [] => []
  | e :: s => (e.2.1 ++ [e.2.2]).map SendR.ok ++ scriptSends s

/-- The send events of a scripted run: each command send followed by one
continuation newline per marker page. -/
def scriptEvents : Script → List Ev
  | [] => []
  | e :: s =>
    Ev.sendCmd e.1 :: (List.replicate e.2.1.length (Ev.sendCmd newlineCmd) ++ scriptEvents s)

/-- The part of the module output contributed by one command: the synthesized
echo line, the pages, and the single `replace` pass (line 236). -/
def sectionOf (e : ScriptEntry) : Str :=
  strReplace more_prompt (echoLine e.1 ++ (catSegs e.2.1 ++ e.2.2))

/-- All marker pages contain the marker and each final page does not. -/
def ScriptOK (s : Script) : Prop :=
  ∀ e ∈ s, (∀ p ∈ e.2.1, hasSub more_prompt p = true) ∧ hasSub more_prompt e.2.2 = false

instance (s : Script) : Decidable (ScriptOK s) := by
  unfold ScriptOK
  infer_instance

/-- Concatenation of the per-command sections. -/
def sectionsCat (s : Script) : Str := catSegs (s.map sectionOf)


/-- A small scripted session: one command, one marker page, one final page. -/
def demoScript : Script :=
  [("show log".data, ["line one--More-- or (q)uit".data], "line two".data)]


-- ### basic list facts

theorem ipo_iff (m : Str) : ∀ s : Str, m.isPrefixOf s = true ↔ ∃ t, s = m ++ t := by
  induction m with
  | nil =>
    intro s
    simp [List.isPrefixOf]
  | cons a m ih =>
    intro s
    cases s with
    | nil => simp [List.isPrefixOf]
    | cons b t =>
      simp only [List.isPrefixOf, Bool.and_eq_true, beq_iff_eq, ih t, List.cons_append,
        List.cons.injEq]
      constructor
      · rintro ⟨rfl, u, rfl⟩; exact ⟨u, rfl, rfl⟩
      · rintro ⟨u, rfl, rfl⟩; exact ⟨rfl, u, rfl⟩

theorem ipo_of_eq_append {m s t : Str} (h : s = m ++ t) : m.isPrefixOf s = true :=
  (ipo_iff m s).2 ⟨t, h⟩

theorem drop_len_append (a b : Str) : (a ++ b).drop a.length = b := by
  induction a with
  | nil => rfl
  | cons c a ih => simpa using ih

theorem take_len_append (a b : Str) : (a ++ b).take a.length = a := by
  induction a with
  | nil => rfl
  | cons c a ih => simpa using ih

theorem drop_append_le (i : Nat) : ∀ a b : Str, i ≤ a.length → (a ++ b).drop i = a.drop i ++ b := by
  induction i with
  | zero => intro a b _; rfl
  | succ i ih =>
    intro a b h
    cases a with
    | nil => simp at h
    | cons c a => simpa using ih a b (by simpa using h)

theorem take_append_le (i : Nat) : ∀ a b : Str, i ≤ a.length → (a ++ b).take i = a.take i := by
  induction i with
  | zero => intro a b _; rfl
  | succ i ih =>
    intro a b h
    cases a with
    | nil => simp at h
    | cons c a => simpa using ih a b (by simpa using h)

theorem get?_append_left (k : Nat) : ∀ a b : Str, k < a.length → (a ++ b).get? k = a.get? k := by
  induction k with
  | zero =>
    intro a b h
    cases a with
    | nil => simp at h
    | cons c a => rfl
  | succ k ih =>
    intro a b h
    cases a with
    | nil => simp at h
    | cons c a => simpa using ih a b (by simpa using h)

theorem get?_drop (n : Nat) : ∀ (l : Str) (k : Nat), (l.drop n).get? k = l.get? (n + k) := by
  induction n with
  | zero => intro l k; simp
  | succ n ih =>
    intro l k
    cases l with
    | nil => simp
    | cons c t => simpa [Nat.succ_add] using ih t k

theorem get?_concat_len (a : Char) : ∀ l : Str, (l ++ [a]).get? l.length = some a := by
  intro l
  induction l with
  | nil => rfl
  | cons c t ih => simpa using ih

theorem mem_of_get?_eq {l : Str} {n : Nat} {a : Char} (h : l.get? n = some a) : a ∈ l := by
  induction l generalizing n with
  | nil => simp [List.get?] at h
  | cons c t ih =>
    cases n with
    | zero =>
      simp only [List.get?] at h
      exact (Option.some.injEq _ _ ▸ h : c = a) ▸ List.mem_cons_self c t
    | succ n => exact List.mem_cons_of_mem _ (ih h)

theorem append_cancel_left : ∀ {a b c : Str}, a ++ b = a ++ c → b = c := by
  intro a
  induction a with
  | nil => intro b c h; exact h
  | cons x a ih =>
    intro b c h
    simp only [List.cons_append, List.cons.injEq] at h
    exact ih h.2

-- ### unfolding `strReplace`

theorem strReplaceF_fuel (m : Str) (hm : m ≠ []) :
    ∀ n n' (s : Str), s.length ≤ n → s.length ≤ n' → strReplaceF m n s = strReplaceF m n' s := by
  intro n
  induction n with
  | zero =>
    intro n' s h _
    have : s = [] := List.eq_nil_of_length_eq_zero (Nat.le_zero.mp h)
    subst this
    cases n' <;> rfl
  | succ n ih =>
    intro n' s h h'
    cases s with
    | nil => cases n' <;> rfl
    | cons c t =>
      cases n' with
      | zero => simp at h'
      | succ n' =>
        simp only [strReplaceF]
        by_cases hp : m.isPrefixOf (c :: t) = true
        · rw [if_pos hp, if_pos hp]
          have hlen : ((c :: t).drop m.length).length ≤ t.length := by
            have : 1 ≤ m.length := by
              cases m with
              | nil => exact absurd rfl hm
              | cons a as => simp
            simp only [List.length_drop, List.length_cons]
            omega
          exact ih n' _ (le_trans hlen (by simpa using h))
            (le_trans hlen (by simpa using h'))
        · rw [if_neg hp, if_neg hp]
          have := ih n' t (by simpa using h) (by simpa using h')
          rw [this]

theorem strReplace_nil (m : Str) : strReplace m [] = [] := rfl

theorem strReplace_cons (m : Str) (hm : m ≠ []) (c : Char) (t : Str) :
    strReplace m (c :: t) =
      if m.isPrefixOf (c :: t) then strReplace m ((c :: t).drop m.length)
      else c :: strReplace m t := by
  show strReplaceF m (t.length + 1) (c :: t) = _
  simp only [strReplaceF]
  by_cases hp : m.isPrefixOf (c :: t) = true
  · rw [if_pos hp, if_pos hp]
    apply strReplaceF_fuel m hm
    · have : 1 ≤ m.length := by
        cases m with
        | nil => exact absurd rfl hm
        | cons a as => simp
      simp only [List.length_drop, List.length_cons]
      omega
    · exact le_rfl
  · rw [if_neg hp, if_neg hp]
    rfl

-- ### `hasSub` facts

theorem hasSub_of_ipo {m s : Str} (h : m.isPrefixOf s = true) : hasSub m s = true := by
  cases s with
  | nil =>
    obtain ⟨t, ht⟩ := (ipo_iff m []).1 h
    have : m = [] := by
      cases m with
      | nil => rfl
      | cons a as => simp at ht
    simp [hasSub, this]
  | cons c t => simp [hasSub, h]

theorem hasSub_cons_of_tail {m : Str} {c : Char} {t : Str} (h : hasSub m t = true) :
    hasSub m (c :: t) = true := by
  simp [hasSub, h]

theorem hasSub_append_right {m b : Str} (h : hasSub m b = true) :
    ∀ a : Str, hasSub m (a ++ b) = true := by
  intro a
  induction a with
  | nil => simpa using h
  | cons c a ih => exact hasSub_cons_of_tail ih

theorem hasSub_append_left {m : Str} : ∀ {a : Str}, hasSub m a = true →
    ∀ b : Str, hasSub m (a ++ b) = true := by
  intro a
  induction a with
  | nil =>
    intro h b
    simp only [hasSub, decide_eq_true_eq] at h
    subst h
    cases b with
    | nil => rfl
    | cons c t => simp [hasSub, List.isPrefixOf]
  | cons c a ih =>
    intro h b
    simp only [hasSub, Bool.or_eq_true] at h
    rcases h with h | h
    · obtain ⟨t, ht⟩ := (ipo_iff m _).1 h
      apply hasSub_of_ipo (m := m) (s := (c :: a) ++ b)
      exact ipo_of_eq_append (t := t ++ b) (by rw [ht, List.append_assoc])
    · exact hasSub_cons_of_tail (ih h b)

theorem hasSub_drop {m : Str} : ∀ (i : Nat) (a : Str), hasSub m (a.drop i) = true →
    hasSub m a = true := by
  intro i
  induction i with
  | zero => intro a h; exact h
  | succ i ih =>
    intro a h
    cases a with
    | nil => exact h
    | cons c t => exact hasSub_cons_of_tail (ih t h)

theorem strReplace_of_not_hasSub (m : Str) (hm : m ≠ []) :
    ∀ s : Str, hasSub m s = false → strReplace m s = s := by
  intro s
  induction s with
  | nil => intro _; rfl
  | cons c t ih =>
    intro h
    simp only [hasSub, Bool.or_eq_false_iff] at h
    rw [strReplace_cons m hm, h.1]
    simp only [if_false, Bool.false_eq_true]
    rw [ih h.2]

-- ### scanning lemmas for `strReplace`

/-- Removing a leading occurrence of the pattern. -/
theorem strReplace_consume (m : Str) (hm : m ≠ []) (r : Str) :
    strReplace m (m ++ r) = strReplace m r := by
  cases m with
  | nil => exact absurd rfl hm
  | cons a as =>
    rw [List.cons_append, strReplace_cons _ hm]
    rw [if_pos (ipo_of_eq_append (t := r) (by simp))]
    have : ((a :: as) ++ r).drop (a :: as).length = r := drop_len_append _ _
    simp only [List.cons_append] at this
    rw [this]

/-- If no scan position inside `A` starts a match, the scan copies `A`. -/
theorem strReplace_append_no_match (m : Str) (hm : m ≠ []) :
    ∀ A B : Str, (∀ i, i < A.length → m.isPrefixOf ((A ++ B).drop i) = false) →
      strReplace m (A ++ B) = A ++ strReplace m B := by
  intro A
  induction A with
  | nil => intro B _; rfl
  | cons c A ih =>
    intro B h
    rw [List.cons_append, strReplace_cons _ hm]
    have h0 : m.isPrefixOf (c :: (A ++ B)) = false := by
      have := h 0 (by simp)
      simpa using this
    rw [if_neg (by simp [h0])]
    rw [ih B (fun i hi => by simpa using h (i + 1) (by simpa using Nat.succ_lt_succ hi))]
    rfl

/-- With an unbordered pattern, no match can start strictly inside the clean
text `D ++ (m ++ r)` before the explicit occurrence of `m`. -/
theorem no_match_before_marker (m : Str) (hm : m ≠ []) (hub : Unbordered m)
    (D : Str) (hD : D ≠ []) (hclean : hasSub m D = false) (r : Str) :
    m.isPrefixOf (D ++ (m ++ r)) = false := by
  by_contra hcon
  have hp : m.isPrefixOf (D ++ (m ++ r)) = true := by
    cases hq : m.isPrefixOf (D ++ (m ++ r)) with
    | false => exact absurd hq hcon
    | true => rfl
  obtain ⟨t, ht⟩ := (ipo_iff m _).1 hp
  by_cases hlen : m.length ≤ D.length
  · -- the match would fit inside `D`
    have htake : (D ++ (m ++ r)).take m.length = D.take m.length :=
      take_append_le m.length D (m ++ r) hlen
    have hm' : m = D.take m.length := by
      rw [ht] at htake
      rw [take_len_append] at htake
      exact htake
    have hDsplit : D = m ++ D.drop m.length := by
      conv_lhs => rw [← List.take_append_drop m.length D]
      rw [← hm']
    have : m.isPrefixOf D = true := ipo_of_eq_append hDsplit
    exact absurd (hasSub_of_ipo this) (by simp [hclean])
  · -- the match overlaps the explicit occurrence: a border of `m`
    have hlt : D.length < m.length := Nat.lt_of_not_le hlen
    have heq2 : m ++ r = m.drop D.length ++ t := by
      have hdl := congrArg (List.drop D.length) ht
      rw [drop_len_append] at hdl
      rw [drop_append_le D.length m t (Nat.le_of_lt hlt)] at hdl
      exact hdl
    have hdroptake : m.drop D.length = m.take (m.length - D.length) := by
      have h3 := congrArg (List.take (m.length - D.length)) heq2
      rw [take_append_le _ m r (Nat.sub_le _ _)] at h3
      have h4 : (m.drop D.length ++ t).take (m.length - D.length) = m.drop D.length := by
        have h5 := take_len_append (m.drop D.length) t
        rwa [List.length_drop] at h5
      rw [h4] at h3
      exact h3.symm
    have hipo : (m.drop D.length).isPrefixOf m = true := by
      apply ipo_of_eq_append (t := m.drop (m.length - D.length))
      rw [hdroptake]
      exact (List.take_append_drop _ m).symm
    have hzero : 0 < D.length := by
      cases D with
      | nil => exact absurd rfl hD
      | cons x xs => simp
    have hfalse := hub D.length hlt hzero
    rw [hfalse] at hipo
    exact absurd hipo (by simp)

/-- Scanning a marker-free segment followed by an explicit marker copies the
segment and consumes the marker. -/
theorem strReplace_clean_seg (m : Str) (hm : m ≠ []) (hub : Unbordered m)
    (A : Str) (hA : hasSub m A = false) (r : Str) :
    strReplace m (A ++ (m ++ r)) = A ++ strReplace m r := by
  rw [strReplace_append_no_match m hm A (m ++ r)]
  · rw [strReplace_consume m hm]
  · intro i hi
    rw [drop_append_le i A (m ++ r) (Nat.le_of_lt hi)]
    apply no_match_before_marker m hm hub
    · intro hnil
      have := congrArg List.length hnil
      simp only [List.length_drop, List.length_nil] at this
      omega
    · cases hq : hasSub m (A.drop i) with
      | false => rfl
      | true => exact absurd (hasSub_drop i A hq) (by simp [hA])

-- ### concrete facts about the pager marker

theorem more_prompt_ne_nil : more_prompt ≠ [] := by decide

theorem more_prompt_unbordered : Unbordered more_prompt := by
  have h : ∀ k ∈ List.range more_prompt.length,
      0 < k → (more_prompt.drop k).isPrefixOf more_prompt = false := by decide
  intro k hk hpos
  exact h k (List.mem_range.mpr hk) hpos

theorem strReplace_joinSep (segs : List Str)
    (h : hasSub more_prompt (catSegs segs) = false) :
    strReplace more_prompt (joinSep more_prompt segs) = catSegs segs := by
  induction segs with
  | nil => rfl
  | cons x segs ih =>
    cases segs with
    | nil =>
      show strReplace more_prompt x = catSegs [x]
      have hx : hasSub more_prompt x = false := by
        have : catSegs [x] = x ++ [] := rfl
        rw [this, List.append_nil] at h
        exact h
      rw [strReplace_of_not_hasSub more_prompt more_prompt_ne_nil x hx]
      show x = x ++ catSegs []
      rw [show catSegs ([] : List Str) = [] from rfl, List.append_nil]
    | cons y rest =>
      have hjoin : catSegs (x :: y :: rest) = x ++ catSegs (y :: rest) := rfl
      rw [hjoin] at h
      have hx : hasSub more_prompt x = false := by
        cases hq : hasSub more_prompt x with
        | false => rfl
        | true =>
          rw [hasSub_append_left hq (catSegs (y :: rest))] at h
          exact absurd h (by simp)
      have htail : hasSub more_prompt (catSegs (y :: rest)) = false := by
        cases hq : hasSub more_prompt (catSegs (y :: rest)) with
        | false => rfl
        | true =>
          rw [hasSub_append_right hq x] at h
          exact absurd h (by simp)
      show strReplace more_prompt (x ++ (more_prompt ++ joinSep more_prompt (y :: rest)))
          = x ++ catSegs (y :: rest)
      rw [strReplace_clean_seg more_prompt more_prompt_ne_nil more_prompt_unbordered x hx]
      rw [ih htail]

-- ### pagination loop lemmas

theorem pagLoop_clean {page : Str} (h : hasSub more_prompt page = false)
    (env : List SendR) (acc : Str) :
    sshPagLoop env page acc = PagR.done (acc ++ page) env [] := by
  cases env with
  | nil => simp [sshPagLoop, h]
  | cons r env => simp [sshPagLoop, h]

theorem pagLoop_more_cons {page : Str} (h : hasSub more_prompt page = true)
    (p : Str) (env : List SendR) (acc : Str) :
    sshPagLoop (SendR.ok p :: env) page acc = pagStep (sshPagLoop env p (acc ++ page)) := by
  simp [sshPagLoop, h]

theorem pagLoop_exn_cons {page : Str} (h : hasSub more_prompt page = true)
    (b : Bool) (m : Str) (env : List SendR) (acc : Str) :
    sshPagLoop (SendR.exn b m :: env) page acc
      = PagR.fail (paginationMsg m) [Ev.sendCmd newlineCmd] := by
  simp [sshPagLoop, h]

/-- A scripted pagination run: the current page and every page in `more`
contain the pager marker, `last` does not.  The loop appends every page once,
issues exactly one continuation newline per marker page, stops right after
`last`, and leaves the rest of the environment untouched.  `more` is
arbitrary: the number of pages is unbounded. -/
theorem pagLoop_pages : ∀ (more : List Str) (page last : Str) (rest : List SendR) (acc : Str),
    hasSub more_prompt page = true →
    (∀ p ∈ more, hasSub more_prompt p = true) →
    hasSub more_prompt last = false →
    sshPagLoop (more.map SendR.ok ++ (SendR.ok last :: rest)) page acc
      = PagR.done (acc ++ page ++ catSegs more ++ last) rest
          (List.replicate (more.length + 1) (Ev.sendCmd newlineCmd)) := by
  intro more
  induction more with
  | nil =>
    intro page last rest acc hpage _ hlast
    rw [List.map_nil, List.nil_append, pagLoop_more_cons hpage last rest acc]
    rw [pagLoop_clean hlast rest (acc ++ page)]
    show PagR.done (acc ++ page ++ last) rest [Ev.sendCmd newlineCmd] = _
    rw [show catSegs [] = ([] : Str) from rfl, List.append_nil]
    rfl
  | cons q more ih =>
    intro page last rest acc hpage hmore hlast
    rw [List.map_cons, List.cons_append, pagLoop_more_cons hpage q _ acc]
    rw [ih q last rest (acc ++ page) (hmore q (List.mem_cons_self q more))
      (fun p hp => hmore p (List.mem_cons_of_mem q hp)) hlast]
    show PagR.done (acc ++ page ++ q ++ catSegs more ++ last) rest
        (Ev.sendCmd newlineCmd :: List.replicate (more.length + 1) (Ev.sendCmd newlineCmd)) = _
    rw [show catSegs (q :: more) = q ++ catSegs more from rfl]
    rw [← List.replicate_succ]
    simp [List.append_assoc]

/-- Same script, but the send after the last marker page raises: the inner
`except Exception` turns it into the fatal `Pagination Exception`. -/
theorem pagLoop_pages_exn : ∀ (more : List Str) (page : Str) (b : Bool) (m : Str)
    (rest : List SendR) (acc : Str),
    hasSub more_prompt page = true →
    (∀ p ∈ more, hasSub more_prompt p = true) →
    sshPagLoop (more.map SendR.ok ++ (SendR.exn b m :: rest)) page acc
      = PagR.fail (paginationMsg m)
          (List.replicate (more.length + 1) (Ev.sendCmd newlineCmd)) := by
  intro more
  induction more with
  | nil =>
    intro page b m rest acc hpage _
    rw [List.map_nil, List.nil_append, pagLoop_exn_cons hpage b m rest acc]
    rfl
  | cons q more ih =>
    intro page b m rest acc hpage hmore
    rw [List.map_cons, List.cons_append, pagLoop_more_cons hpage q _ acc]
    rw [ih q b m rest (acc ++ page) (hmore q (List.mem_cons_self q more))
      (fun p hp => hmore p (List.mem_cons_of_mem q hp))]
    show PagR.fail (paginationMsg m)
        (Ev.sendCmd newlineCmd :: List.replicate (more.length + 1) (Ev.sendCmd newlineCmd)) = _
    rw [← List.replicate_succ]
    rfl

/-- If the device never produces a marker-free page, the loop never finishes:
however long the scripted environment, the result is exhaustion (`PagR.out`),
never `PagR.done`. -/
theorem pagLoop_no_clean : ∀ (env : List SendR) (page acc : Str),
    hasSub more_prompt page = true →
    (∀ r ∈ env, ∃ p, r = SendR.ok p ∧ hasSub more_prompt p = true) →
    ∃ evs, sshPagLoop env page acc = PagR.out evs := by
  intro env
  induction env with
  | nil =>
    intro page acc hpage _
    exact ⟨[], by simp [sshPagLoop, hpage]⟩
  | cons r env ih =>
    intro page acc hpage henv
    obtain ⟨p, rfl, hp⟩ := henv r (List.mem_cons_self r env)
    obtain ⟨evs, hevs⟩ := ih p (acc ++ page) hp
      (fun r2 h2 => henv r2 (List.mem_cons_of_mem _ h2))
    refine ⟨Ev.sendCmd newlineCmd :: evs, ?_⟩
    rw [pagLoop_more_cons hpage p env acc, hevs]
    rfl

theorem sshCmds_script : ∀ (s : Script) (rest : List SendR) (outAcc : Str),
    ScriptOK s →
    sshCmds (scriptCmds s) (scriptSends s ++ rest) outAcc
      = CmdsR.done (outAcc ++ sectionsCat s) (scriptEvents s) := by
  intro s
  induction s with
  | nil =>
    intro rest outAcc _
    show CmdsR.done outAcc [] = _
    rw [show sectionsCat [] = ([] : Str) from rfl, List.append_nil]
    rfl
  | cons e s ih =>
    intro rest outAcc hok
    obtain ⟨c, pre, last⟩ := e
    have hoke := hok ⟨c, pre, last⟩ (List.mem_cons_self _ s)
    have hoks : ScriptOK s := fun e2 h2 => hok e2 (List.mem_cons_of_mem _ h2)
    show sshCmds (c :: scriptCmds s)
        (((pre ++ [last]).map SendR.ok ++ scriptSends s) ++ rest) outAcc = _
    cases pre with
    | nil =>
      show sshCmds (c :: scriptCmds s) (SendR.ok last :: (scriptSends s ++ rest)) outAcc = _
      rw [show sshCmds (c :: scriptCmds s) (SendR.ok last :: (scriptSends s ++ rest)) outAcc
          = (match sshPagLoop (scriptSends s ++ rest) last (echoLine c) with
             | PagR.done cmdOut env2 evs =>
               cmdStep c evs (sshCmds (scriptCmds s) env2
                 (outAcc ++ strReplace more_prompt cmdOut))
             | PagR.fail m evs => CmdsR.fail m (Ev.sendCmd c :: evs)
             | PagR.out evs => CmdsR.out (Ev.sendCmd c :: evs)) from rfl]
      rw [pagLoop_clean hoke.2 (scriptSends s ++ rest) (echoLine c)]
      show cmdStep c [] (sshCmds (scriptCmds s) (scriptSends s ++ rest)
          (outAcc ++ strReplace more_prompt (echoLine c ++ last))) = _
      rw [ih rest (outAcc ++ strReplace more_prompt (echoLine c ++ last)) hoks]
      show CmdsR.done (outAcc ++ strReplace more_prompt (echoLine c ++ last) ++ sectionsCat s)
          (Ev.sendCmd c :: ([] ++ scriptEvents s)) = _
      rw [List.nil_append]
      have hsec : sectionOf ⟨c, [], last⟩ = strReplace more_prompt (echoLine c ++ last) := by
        show strReplace more_prompt (echoLine c ++ (catSegs [] ++ last)) = _
        rw [show catSegs [] = ([] : Str) from rfl, List.nil_append]
      show _ = CmdsR.done (outAcc ++ catSegs (sectionOf ⟨c, [], last⟩ :: s.map sectionOf))
          (Ev.sendCmd c :: (List.replicate 0 (Ev.sendCmd newlineCmd) ++ scriptEvents s))
      rw [show catSegs (sectionOf ⟨c, [], last⟩ :: s.map sectionOf)
          = sectionOf ⟨c, [], last⟩ ++ catSegs (s.map sectionOf) from rfl]
      rw [hsec, List.replicate_zero, List.nil_append, ← List.append_assoc]
      rfl
    | cons p0 pre =>
      show sshCmds (c :: scriptCmds s)
          (SendR.ok p0 :: (((pre ++ [last]).map SendR.ok ++ scriptSends s) ++ rest)) outAcc = _
      rw [show sshCmds (c :: scriptCmds s)
          (SendR.ok p0 :: (((pre ++ [last]).map SendR.ok ++ scriptSends s) ++ rest)) outAcc
          = (match sshPagLoop (((pre ++ [last]).map SendR.ok ++ scriptSends s) ++ rest) p0
                (echoLine c) with
             | PagR.done cmdOut env2 evs =>
               cmdStep c evs (sshCmds (scriptCmds s) env2
                 (outAcc ++ strReplace more_prompt cmdOut))
             | PagR.fail m evs => CmdsR.fail m (Ev.sendCmd c :: evs)
             | PagR.out evs => CmdsR.out (Ev.sendCmd c :: evs)) from rfl]
      have henv : ((pre ++ [last]).map SendR.ok ++ scriptSends s) ++ rest
          = pre.map SendR.ok ++ (SendR.ok last :: (scriptSends s ++ rest)) := by
        rw [List.map_append]
        simp [List.append_assoc]
      rw [henv]
      have hp0 : hasSub more_prompt p0 = true := hoke.1 p0 (List.mem_cons_self p0 pre)
      have hpre : ∀ p ∈ pre, hasSub more_prompt p = true :=
        fun p hp => hoke.1 p (List.mem_cons_of_mem p0 hp)
      rw [pagLoop_pages pre p0 last (scriptSends s ++ rest) (echoLine c) hp0 hpre hoke.2]
      show cmdStep c (List.replicate (pre.length + 1) (Ev.sendCmd newlineCmd))
          (sshCmds (scriptCmds s) (scriptSends s ++ rest)
            (outAcc ++ strReplace more_prompt (echoLine c ++ p0 ++ catSegs pre ++ last))) = _
      rw [ih rest _ hoks]
      have hsec : sectionOf ⟨c, p0 :: pre, last⟩
          = strReplace more_prompt (echoLine c ++ p0 ++ catSegs pre ++ last) := by
        show strReplace more_prompt (echoLine c ++ (catSegs (p0 :: pre) ++ last)) = _
        rw [show catSegs (p0 :: pre) = p0 ++ catSegs pre from rfl]
        simp [List.append_assoc]
      show CmdsR.done
          (outAcc ++ strReplace more_prompt (echoLine c ++ p0 ++ catSegs pre ++ last)
            ++ sectionsCat s)
          (Ev.sendCmd c :: (List.replicate (pre.length + 1) (Ev.sendCmd newlineCmd)
            ++ scriptEvents s)) = _
      show _ = CmdsR.done (outAcc ++ catSegs (sectionOf ⟨c, p0 :: pre, last⟩ :: s.map sectionOf))
          (Ev.sendCmd c :: (List.replicate (p0 :: pre).length (Ev.sendCmd newlineCmd)
            ++ scriptEvents s))
      rw [show catSegs (sectionOf ⟨c, p0 :: pre, last⟩ :: s.map sectionOf)
          = sectionOf ⟨c, p0 :: pre, last⟩ ++ catSegs (s.map sectionOf) from rfl]
      rw [hsec, ← List.append_assoc]
      rfl

-- ### the synthesized echo line survives the replace pass

theorem echo_no_match (c : Str) (hc : hasSub more_prompt c = false) (B : Str) :
    ∀ i, i < (echoLine c).length →
      more_prompt.isPrefixOf ((echoLine c ++ B).drop i) = false := by
  intro i hi
  by_contra hcon
  have hp : more_prompt.isPrefixOf ((echoLine c ++ B).drop i) = true := by
    cases hq : more_prompt.isPrefixOf ((echoLine c ++ B).drop i) with
    | false => exact absurd hq hcon
    | true => rfl
  obtain ⟨t, ht⟩ := (ipo_iff _ _).1 hp
  have hchar : ∀ k, k < more_prompt.length →
      (echoLine c ++ B).get? (i + k) = more_prompt.get? k := by
    intro k hk
    rw [← get?_drop i (echoLine c ++ B) k, ht, get?_append_left k more_prompt t hk]
  have hlen : (echoLine c).length = c.length + 2 := by
    show ('>' :: (c ++ newlineCmd)).length = _
    simp [newlineCmd]
  cases i with
  | zero =>
    have h0 := hchar 0 (by decide)
    have hS : (echoLine c ++ B).get? (0 + 0) = some '>' := rfl
    rw [hS] at h0
    exact absurd h0 (by decide)
  | succ j =>
    have hj : j ≤ c.length := by
      rw [hlen] at hi
      omega
    have hdropS : (echoLine c ++ B).drop (j + 1) = c.drop j ++ (newlineCmd ++ B) := by
      show (('>' :: (c ++ newlineCmd)) ++ B).drop (j + 1) = _
      rw [List.cons_append, List.drop_succ_cons, List.append_assoc]
      exact drop_append_le j c (newlineCmd ++ B) hj
    by_cases hfit : j + more_prompt.length ≤ c.length
    · -- the match would lie inside `c`
      rw [hdropS] at ht
      have hmlen : more_prompt.length ≤ (c.drop j).length := by
        simp only [List.length_drop]
        omega
      have htake := congrArg (List.take more_prompt.length) ht
      rw [take_append_le _ (c.drop j) (newlineCmd ++ B) hmlen] at htake
      rw [take_len_append] at htake
      have hsplit := (List.take_append_drop more_prompt.length (c.drop j)).symm
      rw [htake] at hsplit
      have := hasSub_drop j c (hasSub_of_ipo (ipo_of_eq_append hsplit))
      exact absurd this (by simp [hc])
    · -- the match would cover the `'\n'` of the echo line
      have hk : c.length - j < more_prompt.length := by omega
      have hpos : j + 1 + (c.length - j) = c.length + 1 := by omega
      have hnl := hchar (c.length - j) hk
      rw [hpos] at hnl
      have hS : (echoLine c ++ B).get? (c.length + 1) = some '\n' := by
        show (('>' :: (c ++ newlineCmd)) ++ B).get? (c.length + 1) = _
        rw [List.cons_append]
        show ((c ++ newlineCmd) ++ B).get? c.length = _
        rw [get?_append_left c.length (c ++ newlineCmd) B
          (by simp [newlineCmd])]
        exact get?_concat_len '\n' c
      rw [hS] at hnl
      have : '\n' ∈ more_prompt := mem_of_get?_eq hnl.symm
      exact absurd this (by decide)

/-- The single `replace` pass copies the echo line untouched whenever the
command itself does not contain the pager marker. -/
theorem strReplace_echo_skip (c : Str) (hc : hasSub more_prompt c = false) (B : Str) :
    strReplace more_prompt (echoLine c ++ B) = echoLine c ++ strReplace more_prompt B :=
  strReplace_append_no_match more_prompt more_prompt_ne_nil (echoLine c) B (echo_no_match c hc B)

-- ### claims

/-- C5 (amended): the single `replace` pass (line 236) removes every marker
occurrence scanned in the input: for any input made of N ≥ 0 marker
occurrences interleaved with segments whose concatenation is marker-free, one
application returns exactly that concatenation, which contains the marker zero
times.  (As stated over arbitrary inputs the claim is false — deleting an
occurrence can splice a proper leading part and trailing part of the marker
into a fresh occurrence, see the counterexample.) -/
theorem c5_strip_interleaved (segs : List Str)
    (h : hasSub more_prompt (catSegs segs) = false) :
    strReplace more_prompt (joinSep more_prompt segs) = catSegs segs ∧
    hasSub more_prompt (strReplace more_prompt (joinSep more_prompt segs)) = false := by
  have heq := strReplace_joinSep segs h
  exact ⟨heq, by rw [heq, h]⟩

/-- C5 witness: two marker-free segments around one marker occurrence. -/
theorem c5_strip_interleaved_witness :
    hasSub more_prompt (catSegs [['a'], ['b']]) = false ∧
    (strReplace more_prompt (joinSep more_prompt [['a'], ['b']]) = catSegs [['a'], ['b']] ∧
     hasSub more_prompt (strReplace more_prompt (joinSep more_prompt [['a'], ['b']])) = false) :=
  ⟨by decide, c5_strip_interleaved [['a'], ['b']] (by decide)⟩

/-- C5 counterexample: stripping `"--" ++ marker ++ "More-- or (q)uit"` removes
the single explicit occurrence but splices its context into a new one, so one
application does not leave zero occurrences. -/
theorem c5_counterexample :
    hasSub more_prompt
      (strReplace more_prompt ("----More-- or (q)uitMore-- or (q)uit".data)) = true := by
  decide

/-- C1 (amended): over a successfully established SSH session playing out a
script `s` (one entry per command: marker pages, then a marker-free page), a
non-empty batch returns exactly the concatenation, in command order, of the
per-command sections, where each section is the module-synthesized echo line
`'>' + command + '\n'` followed by that command's captured pages, run once
through `replace(more_prompt, "")`.  (The claim as stated — device output
alone, no echo line — fails, see the counterexample.) -/
theorem c1_ssh_content (host : Str) (port : Nat) (user password cliPage : Str)
    (s : Script) (hne : s ≠ []) (hok : ScriptOK s) :
    (sshRun host port user password (scriptCmds s)
        ⟨Except.ok (), SendR.ok cliPage :: scriptSends s⟩).res
      = SshRes.content (sectionsCat s) := by
  have h := sshCmds_script s [] [] hok
  rw [List.append_nil] at h
  show (match sshCmds (scriptCmds s) (scriptSends s) [] with
        | CmdsR.done o evs =>
          (⟨SshRes.content o, true, true, Ev.sendCmd cliEntryCmd :: evs⟩ : SshOut)
        | CmdsR.fail m evs => ⟨SshRes.failJson m, true, false, Ev.sendCmd cliEntryCmd :: evs⟩
        | CmdsR.out evs => ⟨SshRes.fuel, true, false, Ev.sendCmd cliEntryCmd :: evs⟩).res
      = SshRes.content (sectionsCat s)
  rw [h]
  show SshRes.content ([] ++ sectionsCat s) = _
  rw [List.nil_append]

/-- C1 witness: the amended statement at a concrete one-command script. -/
theorem c1_ssh_content_witness :
    demoScript ≠ [] ∧ ScriptOK demoScript ∧
    (sshRun "10.0.0.1".data 22 "admin".data "x".data (scriptCmds demoScript)
        ⟨Except.ok (), SendR.ok [] :: scriptSends demoScript⟩).res
      = SshRes.content (sectionsCat demoScript) :=
  ⟨by decide, by decide,
    c1_ssh_content "10.0.0.1".data 22 "admin".data "x".data [] demoScript
      (by decide) (by decide)⟩

/-- C1 counterexample: the spec's concrete scenario.  One command, device
answers `"RUME924058381\n1 records selected\n"` with no marker; the module
returns the synthesized echo line plus that text, not the text alone. -/
theorem c1_counterexample :
    (sshRun "10.0.0.1".data 22 "admin".data "x".data
        ["sql select Serial Number from productinfo".data]
        ⟨Except.ok (),
          [SendR.ok [], SendR.ok "RUME924058381\n1 records selected\n".data]⟩).res
      ≠ SshRes.content ("RUME924058381\n1 records selected\n".data) := by
  decide

/-- C8 (amended): on a scripted SSH session the content is the concatenation
of the per-command sections, and for every command whose text does not itself
contain the pager marker, its section begins with the module-synthesized echo
line `'>' + command + '\n'` — even when the device pages are all empty.  (For
a command containing the marker the `replace` pass of line 236 also rewrites
the echo line, see the counterexample.) -/
theorem c8_echo_line (host : Str) (port : Nat) (user password cliPage : Str)
    (s : Script) (hok : ScriptOK s) :
    (sshRun host port user password (scriptCmds s)
        ⟨Except.ok (), SendR.ok cliPage :: scriptSends s⟩).res
      = SshRes.content (sectionsCat s) ∧
    ∀ e ∈ s, hasSub more_prompt e.1 = false →
      ∃ t2, sectionOf e = echoLine e.1 ++ t2 := by
  constructor
  · have h := sshCmds_script s [] [] hok
    rw [List.append_nil] at h
    show (match sshCmds (scriptCmds s) (scriptSends s) [] with
          | CmdsR.done o evs =>
            (⟨SshRes.content o, true, true, Ev.sendCmd cliEntryCmd :: evs⟩ : SshOut)
          | CmdsR.fail m evs => ⟨SshRes.failJson m, true, false, Ev.sendCmd cliEntryCmd :: evs⟩
          | CmdsR.out evs => ⟨SshRes.fuel, true, false, Ev.sendCmd cliEntryCmd :: evs⟩).res
        = SshRes.content (sectionsCat s)
    rw [h]
    show SshRes.content ([] ++ sectionsCat s) = _
    rw [List.nil_append]
  · intro e _ hcmd
    refine ⟨strReplace more_prompt (catSegs e.2.1 ++ e.2.2), ?_⟩
    show strReplace more_prompt (echoLine e.1 ++ (catSegs e.2.1 ++ e.2.2)) = _
    exact strReplace_echo_skip e.1 hcmd (catSegs e.2.1 ++ e.2.2)

/-- C8 witness: the amended statement at a concrete script whose single
command is marker-free. -/
theorem c8_echo_line_witness :
    ScriptOK demoScript ∧
    ((sshRun "10.0.0.1".data 22 "admin".data "x".data (scriptCmds demoScript)
        ⟨Except.ok (), SendR.ok [] :: scriptSends demoScript⟩).res
      = SshRes.content (sectionsCat demoScript) ∧
     ∀ e ∈ demoScript, hasSub more_prompt e.1 = false →
       ∃ t2, sectionOf e = echoLine e.1 ++ t2) :=
  ⟨by decide,
    c8_echo_line "10.0.0.1".data 22 "admin".data "x".data [] demoScript (by decide)⟩

/-- C8 counterexample: a command equal to the pager marker itself; the device
emits nothing, and the section is `">\n"`, which does not begin with
`'>' + command + '\n'`. -/
theorem c8_counterexample :
    (sshRun "10.0.0.1".data 22 "admin".data "x".data ["--More-- or (q)uit".data]
        ⟨Except.ok (), [SendR.ok [], SendR.ok []]⟩).res
      = SshRes.content ('>' :: "\n".data) ∧
    ("--More-- or (q)uit".data.isPrefixOf ('>' :: "\n".data) = false) ∧
    (echoLine "--More-- or (q)uit".data).isPrefixOf ('>' :: "\n".data) = false := by
  refine ⟨?_, by decide, by decide⟩
  decide

/-- C9: an empty SSH command batch still performs the CLI-entry send of line
204 and then exits successfully with empty content, issuing no device
command sends and closing the connection. -/
theorem c9_empty_batch (host : Str) (port : Nat) (user password cliPage : Str)
    (rest : List SendR) :
    sshRun host port user password [] ⟨Except.ok (), SendR.ok cliPage :: rest⟩
      = ⟨SshRes.content [], true, true, [Ev.sendCmd cliEntryCmd]⟩ := rfl

/-- C10: behaviour of the pagination loop (lines 221-235).
(1) A marker-free page ends the loop at once, appending just that page and
sending nothing.  (2) If the current page has the marker, each marker page
triggers exactly one continuation newline send and is appended exactly once,
for an arbitrary (unbounded) number of marker pages, until the first
marker-free page ends the loop.  (3) A raised send ends the loop fatally.
(4) If every scripted response is a marker-bearing page the loop never
completes: however long the script, the result is exhaustion, never
completion. -/
theorem c10_pagination (page last : Str) (more : List Str) (rest env : List SendR)
    (acc : Str) (b : Bool) (em : Str) :
    (hasSub more_prompt page = false →
      sshPagLoop env page acc = PagR.done (acc ++ page) env []) ∧
    (hasSub more_prompt page = true → (∀ p ∈ more, hasSub more_prompt p = true) →
      hasSub more_prompt last = false →
      sshPagLoop (more.map SendR.ok ++ (SendR.ok last :: rest)) page acc
        = PagR.done (acc ++ page ++ catSegs more ++ last) rest
            (List.replicate (more.length + 1) (Ev.sendCmd newlineCmd))) ∧
    (hasSub more_prompt page = true → (∀ p ∈ more, hasSub more_prompt p = true) →
      sshPagLoop (more.map SendR.ok ++ (SendR.exn b em :: rest)) page acc
        = PagR.fail (paginationMsg em)
            (List.replicate (more.length + 1) (Ev.sendCmd newlineCmd))) ∧
    (hasSub more_prompt page = true →
      (∀ r ∈ env, ∃ p, r = SendR.ok p ∧ hasSub more_prompt p = true) →
      ∃ evs, sshPagLoop env page acc = PagR.out evs) :=
  ⟨fun h => pagLoop_clean h env acc,
   fun h1 h2 h3 => pagLoop_pages more page last rest acc h1 h2 h3,
   fun h1 h2 => pagLoop_pages_exn more page b em rest acc h1 h2,
   fun h1 h2 => pagLoop_no_clean env page acc h1 h2⟩

/-- C10 witness: the four conclusions at concrete pages. -/
theorem c10_pagination_witness :
    (sshPagLoop [] "end".data [] = PagR.done ([] ++ "end".data) [] []) ∧
    (sshPagLoop (["b--More-- or (q)uit".data].map SendR.ok ++ (SendR.ok "end".data :: []))
        "a--More-- or (q)uit".data []
      = PagR.done ([] ++ "a--More-- or (q)uit".data ++ catSegs ["b--More-- or (q)uit".data]
            ++ "end".data) []
          (List.replicate (["b--More-- or (q)uit".data].length + 1)
            (Ev.sendCmd newlineCmd))) ∧
    (sshPagLoop (["b--More-- or (q)uit".data].map SendR.ok ++ (SendR.exn true "T".data :: []))
        "a--More-- or (q)uit".data []
      = PagR.fail (paginationMsg "T".data)
          (List.replicate (["b--More-- or (q)uit".data].length + 1)
            (Ev.sendCmd newlineCmd))) ∧
    (∃ evs, sshPagLoop [SendR.ok "c--More-- or (q)uit".data] "a--More-- or (q)uit".data []
        = PagR.out evs) := by
  refine ⟨(c10_pagination "end".data "x".data [] [] [] [] true "T".data).1 (by decide),
    (c10_pagination "a--More-- or (q)uit".data "end".data ["b--More-- or (q)uit".data]
      [] [SendR.ok "c--More-- or (q)uit".data] [] true "T".data).2.1
      (by decide) (by decide) (by decide),
    (c10_pagination "a--More-- or (q)uit".data "end".data ["b--More-- or (q)uit".data]
      [] [SendR.ok "c--More-- or (q)uit".data] [] true "T".data).2.2.1
      (by decide) (by decide),
    (c10_pagination "a--More-- or (q)uit".data "end".data ["b--More-- or (q)uit".data]
      [] [SendR.ok "c--More-- or (q)uit".data] [] true "T".data).2.2.2
      (by decide) ?_⟩
  intro r hr
  rw [List.mem_singleton] at hr
  subst hr
  exact ⟨"c--More-- or (q)uit".data, rfl, by decide⟩

/-- C2: a `NetmikoTimeoutException` raised by the continuation send inside the
pagination loop is caught by the inner `except Exception` (line 227), so the
whole invocation fails with the fatal `Pagination Exception` — the batch is
aborted and no content is returned, contrary to the claimed per-command
tolerance.  (The dedicated `except NetmikoTimeoutException` handler of line
233 only guards `cmd_output += page` and the membership test, which cannot
raise it.) -/
theorem c2_timeout_is_fatal :
    sshRun "10.0.0.1".data 22 "admin".data "x".data ["show log".data]
        ⟨Except.ok (), [SendR.ok [], SendR.ok "line one--More-- or (q)uit".data,
          SendR.exn true "Read timeout".data]⟩
      = ⟨SshRes.failJson (paginationMsg "Read timeout".data), true, false,
          [Ev.sendCmd cliEntryCmd, Ev.sendCmd "show log".data, Ev.sendCmd newlineCmd]⟩ ∧
    (sshRun "10.0.0.1".data 22 "admin".data "x".data ["show log".data]
        ⟨Except.ok (), [SendR.ok [], SendR.ok "line one--More-- or (q)uit".data,
          SendR.exn true "Read timeout".data]⟩).res.isContent = false := by
  refine ⟨?_, by decide⟩
  decide

/-- C3 (amended): on both protocol paths the transport is closed exactly on
the successful `exit_json` path; every fatal failure path after the transport
is opened returns with the connection still open (no `close`/`disconnect` is
executed before `fail_json`), and a connect-time failure opens nothing. -/
theorem c3_close_discipline (host : Str) (port : Nat) (user password : Str)
    (commands : List Str) (tenv : TnEnv) (senv : SshEnv) :
    ((telnetRun host port user password commands tenv).closed
        = (telnetRun host port user password commands tenv).res.isContent) ∧
    ((telnetRun host port user password commands tenv).opened = exOk tenv.connect) ∧
    ((sshRun host port user password commands senv).closed
        = (sshRun host port user password commands senv).res.isContent) ∧
    ((sshRun host port user password commands senv).opened = exOk senv.connect) := by
  obtain ⟨c0, r1, r2, r3, r4, r5⟩ := tenv
  obtain ⟨sc, ss⟩ := senv
  refine ⟨?_, ?_, ?_, ?_⟩
  · cases c0 <;> cases r1 <;> cases r2 <;> cases r3 <;> cases r4 <;> cases r5 <;>
      first
        | rfl
        | (simp only [telnetRun]; split <;> rfl)
  · cases c0 <;> cases r1 <;> cases r2 <;> cases r3 <;> cases r4 <;> cases r5 <;>
      first
        | rfl
        | (simp only [telnetRun]; split <;> rfl)
  · cases sc with
    | error e => rfl
    | ok u =>
      cases ss with
      | nil => rfl
      | cons hd tl =>
        cases hd with
        | exn b m => rfl
        | ok p =>
          show (match sshCmds commands tl [] with
                | CmdsR.done o evs =>
                  (⟨SshRes.content o, true, true, Ev.sendCmd cliEntryCmd :: evs⟩ : SshOut)
                | CmdsR.fail m evs =>
                  ⟨SshRes.failJson m, true, false, Ev.sendCmd cliEntryCmd :: evs⟩
                | CmdsR.out evs =>
                  ⟨SshRes.fuel, true, false, Ev.sendCmd cliEntryCmd :: evs⟩).closed
              = (match sshCmds commands tl [] with
                | CmdsR.done o evs =>
                  (⟨SshRes.content o, true, true, Ev.sendCmd cliEntryCmd :: evs⟩ : SshOut)
                | CmdsR.fail m evs =>
                  ⟨SshRes.failJson m, true, false, Ev.sendCmd cliEntryCmd :: evs⟩
                | CmdsR.out evs =>
                  ⟨SshRes.fuel, true, false, Ev.sendCmd cliEntryCmd :: evs⟩).res.isContent
          cases sshCmds commands tl [] <;> rfl
  · cases sc with
    | error e => rfl
    | ok u =>
      cases ss with
      | nil => rfl
      | cons hd tl =>
        cases hd with
        | exn b m => rfl
        | ok p =>
          show (match sshCmds commands tl [] with
                | CmdsR.done o evs =>
                  (⟨SshRes.content o, true, true, Ev.sendCmd cliEntryCmd :: evs⟩ : SshOut)
                | CmdsR.fail m evs =>
                  ⟨SshRes.failJson m, true, false, Ev.sendCmd cliEntryCmd :: evs⟩
                | CmdsR.out evs =>
                  ⟨SshRes.fuel, true, false, Ev.sendCmd cliEntryCmd :: evs⟩).opened = true
          cases sshCmds commands tl [] <;> rfl

set_option maxRecDepth 20000 in
/-- C3 counterexample: a Telnet authentication failure after the connection
was opened; the module fails without closing the transport, contradicting
"closed on every exit path". -/
theorem c3_counterexample :
    (telnetRun "10.0.0.1".data 23 "admin".data "pw".data ["show".data]
        ⟨Except.ok (), Except.ok [], Except.ok [], Except.ok [],
          Except.ok "Enter User Name: ".data, Except.ok []⟩).opened = true ∧
    (telnetRun "10.0.0.1".data 23 "admin".data "pw".data ["show".data]
        ⟨Except.ok (), Except.ok [], Except.ok [], Except.ok [],
          Except.ok "Enter User Name: ".data, Except.ok []⟩).closed = false ∧
    (telnetRun "10.0.0.1".data 23 "admin".data "pw".data ["show".data]
        ⟨Except.ok (), Except.ok [], Except.ok [], Except.ok [],
          Except.ok "Enter User Name: ".data, Except.ok []⟩).res
      = TnRes.failJson (tnAuthMsg "admin".data "10.0.0.1".data 23) := by
  refine ⟨rfl, rfl, ?_⟩
  decide

-- message heads: the authentication text is distinguishable from the
-- transport-error texts by its very first character

theorem tnAuthMsg_head (u h : Str) (p : Nat) : (tnAuthMsg u h p).head? = some '\n' := rfl

theorem tnConnMsg_head (tag : Char) (u h : Str) (p : Nat) (e : Str) :
    (tnConnMsg tag u h p e).head? = some 'O' := rfl

theorem tnAuthMsg_ne_tnConnMsg (u h : Str) (p : Nat) :
    ∀ (tag : Char) (u2 h2 : Str) (p2 : Nat) (e2 : Str),
      tnAuthMsg u h p ≠ tnConnMsg tag u2 h2 p2 e2 := by
  intro tag u2 h2 p2 e2 heq
  have hh := congrArg List.head? heq
  rw [tnAuthMsg_head, tnConnMsg_head] at hh
  exact absurd hh (by decide)

/-- C4: on the Telnet path, when every step up to the line 160 prompt read
succeeds and the text read still contains the `'Enter User Name:'` literal,
the invocation fails via `fail_json` with the authentication message — which
differs from every transport/connection-exception message — and returns no
content. -/
theorem c4_auth_failure (host : Str) (port : Nat) (user password : Str)
    (commands : List Str) (l q r p : Str) (ro : Except Str Str)
    (hauth : hasSub loginLit2 p = true) :
    ((telnetRun host port user password commands
        ⟨Except.ok (), Except.ok l, Except.ok q, Except.ok r, Except.ok p, ro⟩).res
      = TnRes.failJson (tnAuthMsg user host port)) ∧
    ((telnetRun host port user password commands
        ⟨Except.ok (), Except.ok l, Except.ok q, Except.ok r, Except.ok p, ro⟩).res.isContent
      = false) ∧
    (∀ (tag : Char) (u2 h2 : Str) (p2 : Nat) (e2 : Str),
      tnAuthMsg user host port ≠ tnConnMsg tag u2 h2 p2 e2) := by
  refine ⟨?_, ?_, tnAuthMsg_ne_tnConnMsg user host port⟩
  · show (if hasSub loginLit2 p then _ else _ : TnOut).res = _
    rw [if_pos hauth]
  · show (if hasSub loginLit2 p then _ else _ : TnOut).res.isContent = _
    rw [if_pos hauth]
    rfl

/-- C4 witness: a concrete prompt buffer still containing the username-prompt
literal. -/
theorem c4_auth_failure_witness :
    hasSub loginLit2 "\nEnter User Name:".data = true ∧
    (((telnetRun "10.0.0.1".data 23 "admin".data "pw".data ["show".data]
        ⟨Except.ok (), Except.ok [], Except.ok [], Except.ok [],
          Except.ok "\nEnter User Name:".data, Except.ok []⟩).res
      = TnRes.failJson (tnAuthMsg "admin".data "10.0.0.1".data 23)) ∧
    ((telnetRun "10.0.0.1".data 23 "admin".data "pw".data ["show".data]
        ⟨Except.ok (), Except.ok [], Except.ok [], Except.ok [],
          Except.ok "\nEnter User Name:".data, Except.ok []⟩).res.isContent
      = false) ∧
    (∀ (tag : Char) (u2 h2 : Str) (p2 : Nat) (e2 : Str),
      tnAuthMsg "admin".data "10.0.0.1".data 23 ≠ tnConnMsg tag u2 h2 p2 e2)) :=
  ⟨by decide,
    c4_auth_failure "10.0.0.1".data 23 "admin".data "pw".data ["show".data]
      [] [] [] "\nEnter User Name:".data (Except.ok []) (by decide)⟩

/-- C6 (amended): the module result — in particular every `fail_json`
diagnostic — is a function of host, user, port, the commands and the
environment only: changing the password parameter changes no produced result
on either path (the password reaches only the wire, via the Telnet
credential write and the SSH connect call).  (The claim's literal "the
password value never appears in any error message for every input" fails:
a password that happens to coincide with the `user@host:port` connection
descriptor does appear, see the counterexample.) -/
theorem c6_password_noninterference (host : Str) (port : Nat) (user pwA pwB : Str)
    (commands : List Str) (tenv : TnEnv) (senv : SshEnv) :
    ((telnetRun host port user pwA commands tenv).res
      = (telnetRun host port user pwB commands tenv).res) ∧
    ((sshRun host port user pwA commands senv).res
      = (sshRun host port user pwB commands senv).res) := by
  obtain ⟨c0, r1, r2, r3, r4, r5⟩ := tenv
  obtain ⟨sc, ss⟩ := senv
  constructor
  · cases c0 <;> cases r1 <;> cases r2 <;> cases r3 <;> cases r4 <;> cases r5 <;>
      first
        | rfl
        | (simp only [telnetRun]; split <;> rfl)
  · cases sc with
    | error e => rfl
    | ok u =>
      cases ss with
      | nil => rfl
      | cons hd tl => cases hd <;> rfl

set_option maxRecDepth 20000 in
/-- C6 counterexample: with password `"admin@10.0.0.1:22"`, the connect-failure
diagnostic contains the password as a substring (it coincides with the
`user@host:port` descriptor the message embeds). -/
theorem c6_counterexample :
    ((telnetRun "10.0.0.1".data 22 "admin".data "admin@10.0.0.1:22".data []
        ⟨Except.error "timed out".data, Except.ok [], Except.ok [], Except.ok [],
          Except.ok [], Except.ok []⟩).res
      = TnRes.failJson (tnConnMsg 'a' "admin".data "10.0.0.1".data 22 "timed out".data)) ∧
    hasSub "admin@10.0.0.1:22".data
      (tnConnMsg 'a' "admin".data "10.0.0.1".data 22 "timed out".data) = true := by
  refine ⟨?_, by decide⟩
  decide

/-- C7 (amended): on a non-empty Telnet batch that completes, batch completion
is detected exactly once, not per command: the event trace ends, after the
per-command writes, with exactly one write of the four-space end-of-batch
keyword plus newline followed by a single `read_until` whose pattern is the
prompt `'>'` followed by the echo of that keyword (`'>    '`) — not the
keyword followed by the prompt as the claim words it. -/
theorem c7_single_batch_read (host : Str) (port : Nat) (user password : Str)
    (commands : List Str) (l q r p t : Str)
    (hne : commands ≠ []) (hauth : hasSub loginLit2 p = false) :
    telnetRun host port user password commands
        ⟨Except.ok (), Except.ok l, Except.ok q, Except.ok r, Except.ok p, Except.ok t⟩
      = ⟨TnRes.content t, true, true,
          [Ev.readUntil loginLit, Ev.write (user ++ newlineCmd), Ev.readUntil passLit,
           Ev.write (password ++ newlineCmd), Ev.write ctlS, Ev.write clsCmd, Ev.readEager,
           Ev.write newlineCmd, Ev.readUntil promptPat]
          ++ commands.map (fun c => Ev.write (c ++ newlineCmd))
          ++ [Ev.write (sentinel ++ newlineCmd), Ev.readUntil promptPat]⟩ := by
  show (if hasSub loginLit2 p then _ else _ : TnOut) = _
  rw [if_neg (by simp [hauth])]

/-- C7 witness: a one-command batch. -/
theorem c7_single_batch_read_witness :
    (["show".data] : List Str) ≠ [] ∧
    hasSub loginLit2 ">".data = false ∧
    telnetRun "10.0.0.1".data 23 "admin".data "pw".data ["show".data]
        ⟨Except.ok (), Except.ok [], Except.ok [], Except.ok [],
          Except.ok ">".data, Except.ok "out".data⟩
      = ⟨TnRes.content "out".data, true, true,
          [Ev.readUntil loginLit, Ev.write ("admin".data ++ newlineCmd), Ev.readUntil passLit,
           Ev.write ("pw".data ++ newlineCmd), Ev.write ctlS, Ev.write clsCmd, Ev.readEager,
           Ev.write newlineCmd, Ev.readUntil promptPat]
          ++ (["show".data] : List Str).map (fun c => Ev.write (c ++ newlineCmd))
          ++ [Ev.write (sentinel ++ newlineCmd), Ev.readUntil promptPat]⟩ :=
  ⟨by decide, by decide,
    c7_single_batch_read "10.0.0.1".data 23 "admin".data "pw".data ["show".data]
      [] [] [] ">".data "out".data (by decide) (by decide)⟩

/-- C7 counterexample: on a completing batch the module never issues a
`read_until` whose pattern is the end-of-batch keyword followed by the
prompt (neither `'    >'` nor `'    >    '`); the single batch-completion
read uses the pattern `'>    '` — prompt first, keyword echo after it. -/
theorem c7_counterexample :
    ((telnetRun "10.0.0.1".data 23 "admin".data "pw".data ["show".data]
        ⟨Except.ok (), Except.ok [], Except.ok [], Except.ok [],
          Except.ok ">".data, Except.ok "out".data⟩).res
      = TnRes.content "out".data) ∧
    Ev.readUntil "    >".data ∉
      (telnetRun "10.0.0.1".data 23 "admin".data "pw".data ["show".data]
        ⟨Except.ok (), Except.ok [], Except.ok [], Except.ok [],
          Except.ok ">".data, Except.ok "out".data⟩).events ∧
    Ev.readUntil "    >    ".data ∉
      (telnetRun "10.0.0.1".data 23 "admin".data "pw".data ["show".data]
        ⟨Except.ok (), Except.ok [], Except.ok [], Except.ok [],
          Except.ok ">".data, Except.ok "out".data⟩).events ∧
    (telnetRun "10.0.0.1".data 23 "admin".data "pw".data ["show".data]
        ⟨Except.ok (), Except.ok [], Except.ok [], Except.ok [],
          Except.ok ">".data, Except.ok "out".data⟩).events.getLast?
      = some (Ev.readUntil promptPat) := by
  refine ⟨rfl, by decide, by decide, by decide⟩
